import Mathlib

/-!
Shallow embedding of `src/de/read.rs` (bincode's byte-source abstraction):
the `SliceReader` over a borrowed byte slice and the `IoReader` over a
sequential `io::Read` resource, together with the error kinds they raise
and the UTF-8 validation used by `forward_read_str`.

Modelling conventions:
* a byte is a `Nat` (values 0..255 by convention);
* Rust `&mut self` methods become state-passing functions returning
  `result × new-state`; an early `return Err(..)` pairs the error with the
  state as mutated up to that point;
* the `IoReader`'s underlying `R : io::Read` is modelled as the list of
  bytes the resource will yield (`reader`); `read_exact` succeeds exactly
  when enough bytes remain, and on failure behaves like the default
  `io::Read::read_exact` implementation: it copies the bytes it did obtain
  into the front of the destination and consumes the resource, so partial
  writes into the scratch allocation are represented faithfully;
* `Vec<u8> temp_buffer` is modelled by its raw allocation contents `raw`
  (whose length is the capacity) plus the logical length `len`; the logical
  content (what safe code can see) is `raw.take len`; `set_len` updates
  `len` only, `reserve_exact` grows `raw` with arbitrary (here zero) fill.
-/

/-- A byte of the input; the code moves bytes opaquely, so plain `Nat`. -/
abbrev Byte := Nat

/-- Model of `std::str::Utf8Error`: the index up to which the input was
valid (`valid_up_to`), the diagnostic the error carries. -/
structure Utf8Error where
  valid_up_to : Nat
deriving DecidableEq, Repr

/-- Model of `std::io::ErrorKind` restricted to what this file constructs. -/
inductive IoErrorKind where
  | unexpectedEof
deriving DecidableEq, Repr

/-- Model of bincode's `ErrorKind` restricted to the variants this file
constructs: `ErrorKind::Io(..)` and `ErrorKind::InvalidUtf8Encoding(e)`. -/
inductive ErrorKind where
  | Io (k : IoErrorKind)
  | InvalidUtf8Encoding (e : Utf8Error)
deriving DecidableEq, Repr

/-- Is `b` a UTF-8 continuation byte (`0x80..=0xBF`)? -/
def utf8IsCont (b : Byte) : Bool :=
  0x80 ≤ b && b ≤ 0xBF

/-- One pass of `core::str`'s `run_utf8_validation`, expressed as a byte-at-a-
time automaton. `i` is the index of the next byte, `start` the index where the
current multi-byte sequence began, `need` how many continuation bytes are still
required, and `lo`/`hi` the accepted range for the next continuation byte
(the first continuation byte of a 3- or 4-byte sequence has a restricted
range; later ones accept `0x80..=0xBF`). Returns `some start-of-bad-sequence`
on invalid input, `none` on valid input. -/
def utf8ValidateAux : Nat → Nat → Nat → Byte → Byte → List Byte → Option Nat
  | _, _, 0, _, _, [] => none
  | _, start, _ + 1, _, _, [] => some start
  | i, _, 0, _, _, b :: rest =>
    if b ≤ 0x7F then utf8ValidateAux (i + 1) (i + 1) 0 0x80 0xBF rest
    else if b < 0xC2 then some i
    else if b ≤ 0xDF then utf8ValidateAux (i + 1) i 1 0x80 0xBF rest
    else if b = 0xE0 then utf8ValidateAux (i + 1) i 2 0xA0 0xBF rest
    else if b = 0xED then utf8ValidateAux (i + 1) i 2 0x80 0x9F rest
    else if b ≤ 0xEF then utf8ValidateAux (i + 1) i 2 0x80 0xBF rest
    else if b = 0xF0 then utf8ValidateAux (i + 1) i 3 0x90 0xBF rest
    else if b ≤ 0xF3 then utf8ValidateAux (i + 1) i 3 0x80 0xBF rest
    else if b = 0xF4 then utf8ValidateAux (i + 1) i 3 0x80 0x8F rest
    else some i
  | i, start, need + 1, lo, hi, b :: rest =>
    if lo ≤ b ∧ b ≤ hi then utf8ValidateAux (i + 1) start need 0x80 0xBF rest
    else some start

/-- Model of `std::str::from_utf8`: a `str` is represented by its byte list,
so success returns the input bytes and failure the `Utf8Error`. -/
def from_utf8 (l : List Byte) : Except Utf8Error (List Byte) :=
  match utf8ValidateAux 0 0 0 0x80 0xBF l with
  | none => Except.ok l
  | some i => Except.error ⟨i⟩

/-- `SliceReader<'storage>`: holds the remaining slice; the cursor is
implicit in how much of the original region is left. -/
structure SliceReader where
  slice : List Byte
deriving DecidableEq, Repr

/-- `SliceReader::new`. -/
def SliceReader.new (bytes : List Byte) : SliceReader :=
  ⟨bytes⟩

/-- `SliceReader::unexpected_eof()`:
`ErrorKind::Io(io::Error::new(io::ErrorKind::UnexpectedEof, ""))`. -/
def SliceReader.unexpected_eof : ErrorKind :=
  ErrorKind.Io IoErrorKind.unexpectedEof

/-- `SliceReader::get_byte_slice`: error (state untouched) when `length`
exceeds the remaining bytes, otherwise split off the first `length` bytes
and advance the slice past them. -/
def SliceReader.get_byte_slice (r : SliceReader) (length : Nat) :
    Except ErrorKind (List Byte) × SliceReader :=
  if length > r.slice.length then (Except.error SliceReader.unexpected_eof, r)
  else (Except.ok (r.slice.take length), ⟨r.slice.drop length⟩)

/-- `SliceReader::forward_read_str`: take the bytes, validate UTF-8, hand the
string to the visitor (modelled as returning the string's bytes). Note the
slice has already advanced when validation fails. -/
def SliceReader.forward_read_str (r : SliceReader) (length : Nat) :
    Except ErrorKind (List Byte) × SliceReader :=
  match r.get_byte_slice length with
  | (Except.error e, r1) => (Except.error e, r1)
  | (Except.ok s, r1) =>
    match from_utf8 s with
    | Except.error e => (Except.error (ErrorKind.InvalidUtf8Encoding e), r1)
    | Except.ok str => (Except.ok str, r1)

/-- `SliceReader::get_byte_buffer`: `get_byte_slice(length).map(to_vec)`;
the owned copy holds the same byte sequence. -/
def SliceReader.get_byte_buffer (r : SliceReader) (length : Nat) :
    Except ErrorKind (List Byte) × SliceReader :=
  match r.get_byte_slice length with
  | (Except.error e, r1) => (Except.error e, r1)
  | (Except.ok s, r1) => (Except.ok s, r1)

/-- `SliceReader::forward_read_bytes`: the bytes go to the visitor with no
validation (modelled as returning them). -/
def SliceReader.forward_read_bytes (r : SliceReader) (length : Nat) :
    Except ErrorKind (List Byte) × SliceReader :=
  match r.get_byte_slice length with
  | (Except.error e, r1) => (Except.error e, r1)
  | (Except.ok s, r1) => (Except.ok s, r1)

/-- `io::Read::read` for `SliceReader` (delegates to `&[u8]`): copies
`min n remaining` bytes out and advances; returns the bytes written and the
count. -/
def SliceReader.read (r : SliceReader) (n : Nat) :
    (List Byte × Nat) × SliceReader :=
  let k := min n r.slice.length
  ((r.slice.take k, k), ⟨r.slice.drop k⟩)

/-- `io::Read::read_exact` for `SliceReader` (delegates to `&[u8]`, whose
`read_exact` checks the length up front and consumes nothing on failure). -/
def SliceReader.read_exact (r : SliceReader) (n : Nat) :
    Except ErrorKind (List Byte) × SliceReader :=
  if n > r.slice.length then (Except.error SliceReader.unexpected_eof, r)
  else (Except.ok (r.slice.take n), ⟨r.slice.drop n⟩)

/-- `IoReader<R>`: the underlying resource (as the byte list it will yield)
and the scratch `temp_buffer`, modelled as raw allocation (`raw`, whose
length is the capacity) plus committed logical length (`len`). -/
structure IoReader where
  reader : List Byte
  raw : List Byte
  len : Nat
deriving DecidableEq, Repr

/-- `IoReader::new`: `temp_buffer: vec![]` (length 0, capacity 0). -/
def IoReader.new (r : List Byte) : IoReader :=
  ⟨r, [], 0⟩

/-- The logical content of the scratch buffer: what `&self.temp_buffer[..]`
exposes to safe code. -/
def IoReader.temp_buffer (r : IoReader) : List Byte :=
  r.raw.take r.len

/-- The scratch buffer's reported capacity. -/
def IoReader.capacity (r : IoReader) : Nat :=
  r.raw.length

/-- `Vec::reserve_exact` as seen through the allocation: ensure capacity at
least `needed`; fresh memory is uninitialized, here filled with zeros (no
theorem below depends on the fill). -/
def reserve_exact (raw : List Byte) (needed : Nat) : List Byte :=
  if needed > raw.length then raw ++ List.replicate (needed - raw.length) 0
  else raw

/-- `IoReader::fill_buffer`: reserve capacity when `length > temp_buffer.len()`,
form a raw slice of `length` bytes over the allocation, `read_exact` into it,
and only on success `set_len(length)`. On failure the default `read_exact`
has copied the bytes it obtained into the front of the slice and exhausted
the resource, but `len` is not touched. -/
def IoReader.fill_buffer (r : IoReader) (length : Nat) :
    Except ErrorKind Unit × IoReader :=
  let current_length := r.len
  let raw1 := if length > current_length then reserve_exact r.raw length
              else r.raw
  if length ≤ r.reader.length then
    (Except.ok (),
     { reader := r.reader.drop length,
       raw := r.reader.take length ++ raw1.drop length,
       len := length })
  else
    (Except.error (ErrorKind.Io IoErrorKind.unexpectedEof),
     { reader := [],
       raw := r.reader ++ raw1.drop r.reader.length,
       len := r.len })

/-- `IoReader::forward_read_str`: fill, validate the whole logical buffer as
UTF-8, pass the transient string to the visitor (modelled as returning its
bytes). -/
def IoReader.forward_read_str (r : IoReader) (length : Nat) :
    Except ErrorKind (List Byte) × IoReader :=
  match r.fill_buffer length with
  | (Except.error e, r1) => (Except.error e, r1)
  | (Except.ok _, r1) =>
    match from_utf8 r1.temp_buffer with
    | Except.error e => (Except.error (ErrorKind.InvalidUtf8Encoding e), r1)
    | Except.ok str => (Except.ok str, r1)

/-- `IoReader::get_byte_buffer`: fill, then `mem::replace(&mut self.temp_buffer,
Vec::new())` hands the filled buffer to the caller and leaves an empty
length-0, capacity-0 buffer behind. -/
def IoReader.get_byte_buffer (r : IoReader) (length : Nat) :
    Except ErrorKind (List Byte) × IoReader :=
  match r.fill_buffer length with
  | (Except.error e, r1) => (Except.error e, r1)
  | (Except.ok _, r1) =>
    (Except.ok r1.temp_buffer, { reader := r1.reader, raw := [], len := 0 })

/-- `IoReader::forward_read_bytes`: fill and pass the logical buffer to the
visitor (modelled as returning it). -/
def IoReader.forward_read_bytes (r : IoReader) (length : Nat) :
    Except ErrorKind (List Byte) × IoReader :=
  match r.fill_buffer length with
  | (Except.error e, r1) => (Except.error e, r1)
  | (Except.ok _, r1) => (Except.ok r1.temp_buffer, r1)

/-- `io::Read::read_exact` for `IoReader` (delegates to the resource, whose
default implementation consumes what it read before failing). -/
def IoReader.read_exact (r : IoReader) (n : Nat) :
    Except ErrorKind (List Byte) × IoReader :=
  if n > r.reader.length then
    (Except.error (ErrorKind.Io IoErrorKind.unexpectedEof), { r with reader := [] })
  else (Except.ok (r.reader.take n), { r with reader := r.reader.drop n })

/-- `io::Read::read` for `IoReader` (delegates to the resource). -/
def IoReader.read (r : IoReader) (n : Nat) :
    (List Byte × Nat) × IoReader :=
  let k := min n r.reader.length
  ((r.reader.take k, k), { r with reader := r.reader.drop k })

/-! ### Lemmas about the embedding -/

/-- Capacity after `reserve_exact`. -/
theorem reserve_exact_length (raw : List Byte) (n : Nat) :
    (reserve_exact raw n).length = max raw.length n := by
  unfold reserve_exact
  split <;> simp <;> omega

/-- Equation for a fill that has enough stream bytes. -/
theorem fill_buffer_of_le (r : IoReader) (L : Nat) (h : L ≤ r.reader.length) :
    r.fill_buffer L =
      (Except.ok (),
       { reader := r.reader.drop L,
         raw := r.reader.take L ++
           (if L > r.len then reserve_exact r.raw L else r.raw).drop L,
         len := L }) := by
  unfold IoReader.fill_buffer
  simp [h]

/-- Equation for a fill that runs out of stream bytes. -/
theorem fill_buffer_of_gt (r : IoReader) (L : Nat) (h : r.reader.length < L) :
    r.fill_buffer L =
      (Except.error (ErrorKind.Io IoErrorKind.unexpectedEof),
       { reader := [],
         raw := r.reader ++
           (if L > r.len then reserve_exact r.raw L else r.raw).drop r.reader.length,
         len := r.len }) := by
  unfold IoReader.fill_buffer
  rw [if_neg (by omega)]

/-- A successful fill's logical buffer holds exactly the next `L` stream bytes. -/
theorem fill_buffer_temp_of_le (r : IoReader) (L : Nat) (h : L ≤ r.reader.length) :
    ((r.fill_buffer L).2).temp_buffer = r.reader.take L := by
  rw [fill_buffer_of_le r L h]
  show (r.reader.take L ++ _).take L = r.reader.take L
  exact List.take_left' (by simp; omega)

/-- A successful fill commits the logical length to `L`. -/
theorem fill_buffer_len_of_le (r : IoReader) (L : Nat) (h : L ≤ r.reader.length) :
    ((r.fill_buffer L).2).len = L := by
  rw [fill_buffer_of_le r L h]

/-- A failed fill leaves the committed logical length untouched. -/
theorem fill_buffer_len_of_gt (r : IoReader) (L : Nat) (h : r.reader.length < L) :
    ((r.fill_buffer L).2).len = r.len := by
  rw [fill_buffer_of_gt r L h]

/-- A failed fill reports `UnexpectedEof`. -/
theorem fill_buffer_fst_of_gt (r : IoReader) (L : Nat) (h : r.reader.length < L) :
    (r.fill_buffer L).1 = Except.error (ErrorKind.Io IoErrorKind.unexpectedEof) := by
  rw [fill_buffer_of_gt r L h]

/-- A fill with enough stream bytes succeeds. -/
theorem fill_buffer_fst_of_le (r : IoReader) (L : Nat) (h : L ≤ r.reader.length) :
    (r.fill_buffer L).1 = Except.ok () := by
  rw [fill_buffer_of_le r L h]

/-- Capacity after any fill: grown to `L` exactly when needed (given the
representation invariant `len ≤ capacity`). -/
theorem fill_buffer_capacity (r : IoReader) (L : Nat) (hinv : r.len ≤ r.raw.length) :
    ((r.fill_buffer L).2).capacity = max r.raw.length L := by
  unfold IoReader.capacity
  by_cases hL : L ≤ r.reader.length
  · rw [fill_buffer_of_le r L hL]
    by_cases hr : L > r.len <;> simp [hr, reserve_exact_length] <;> omega
  · rw [fill_buffer_of_gt r L (by omega)]
    by_cases hr : L > r.len <;> simp [hr, reserve_exact_length] <;> omega

/-- The representation invariant `len ≤ capacity` is preserved by fills. -/
theorem fill_buffer_inv (r : IoReader) (L : Nat) (hinv : r.len ≤ r.raw.length) :
    ((r.fill_buffer L).2).len ≤ ((r.fill_buffer L).2).raw.length := by
  have hc := fill_buffer_capacity r L hinv
  unfold IoReader.capacity at hc
  by_cases hL : L ≤ r.reader.length
  · rw [fill_buffer_len_of_le r L hL]
    omega
  · rw [fill_buffer_len_of_gt r L (by omega)]
    omega

/-- Equation for `forward_read_bytes` when enough stream bytes remain: the
visitor receives exactly the next `n` stream bytes. -/
theorem forward_read_bytes_of_le (s : IoReader) (n : Nat) (h : n ≤ s.reader.length) :
    s.forward_read_bytes n = (Except.ok (s.reader.take n), (s.fill_buffer n).2) := by
  have ht := fill_buffer_temp_of_le s n h
  unfold IoReader.forward_read_bytes
  rw [fill_buffer_of_le s n h] at ht ⊢
  simp only []
  rw [ht]

/-- Equation for `forward_read_bytes` when the stream is too short. -/
theorem forward_read_bytes_of_gt (s : IoReader) (n : Nat) (h : s.reader.length < n) :
    s.forward_read_bytes n =
      (Except.error (ErrorKind.Io IoErrorKind.unexpectedEof), (s.fill_buffer n).2) := by
  unfold IoReader.forward_read_bytes
  rw [fill_buffer_of_gt s n h]

/-- Equation for `get_byte_buffer` when enough stream bytes remain: the caller
takes ownership of exactly the next `n` stream bytes, and a fresh empty
buffer is left behind. -/
theorem get_byte_buffer_of_le (s : IoReader) (n : Nat) (h : n ≤ s.reader.length) :
    s.get_byte_buffer n =
      (Except.ok (s.reader.take n),
       { reader := s.reader.drop n, raw := [], len := 0 }) := by
  have ht := fill_buffer_temp_of_le s n h
  unfold IoReader.get_byte_buffer
  rw [fill_buffer_of_le s n h] at ht ⊢
  simp only []
  rw [ht]

/-- Equation for `get_byte_buffer` when the stream is too short. -/
theorem get_byte_buffer_of_gt (s : IoReader) (n : Nat) (h : s.reader.length < n) :
    s.get_byte_buffer n =
      (Except.error (ErrorKind.Io IoErrorKind.unexpectedEof), (s.fill_buffer n).2) := by
  unfold IoReader.get_byte_buffer
  rw [fill_buffer_of_gt s n h]

/-- Equation for `IoReader.forward_read_str` when enough stream bytes remain:
the next `n` stream bytes are what gets UTF-8-validated. -/
theorem io_forward_read_str_of_le (s : IoReader) (n : Nat) (h : n ≤ s.reader.length) :
    s.forward_read_str n =
      (match from_utf8 (s.reader.take n) with
       | Except.error e =>
         (Except.error (ErrorKind.InvalidUtf8Encoding e), (s.fill_buffer n).2)
       | Except.ok str => (Except.ok str, (s.fill_buffer n).2)) := by
  have ht := fill_buffer_temp_of_le s n h
  unfold IoReader.forward_read_str
  rw [fill_buffer_of_le s n h] at ht ⊢
  simp only []
  rw [ht]

/-- Equation for `IoReader.forward_read_str` when the stream is too short. -/
theorem io_forward_read_str_of_gt (s : IoReader) (n : Nat) (h : s.reader.length < n) :
    s.forward_read_str n =
      (Except.error (ErrorKind.Io IoErrorKind.unexpectedEof), (s.fill_buffer n).2) := by
  unfold IoReader.forward_read_str
  rw [fill_buffer_of_gt s n h]

/-- Equation for `SliceReader.forward_read_str` when enough bytes remain. -/
theorem slice_forward_read_str_of_le (s : SliceReader) (n : Nat) (h : n ≤ s.slice.length) :
    s.forward_read_str n =
      (match from_utf8 (s.slice.take n) with
       | Except.error e =>
         (Except.error (ErrorKind.InvalidUtf8Encoding e), ⟨s.slice.drop n⟩)
       | Except.ok str => (Except.ok str, ⟨s.slice.drop n⟩)) := by
  unfold SliceReader.forward_read_str SliceReader.get_byte_slice
  rw [if_neg (by omega)]

/-- Equation for `SliceReader.forward_read_str` when the slice is too short:
the error is reported with the slice untouched. -/
theorem slice_forward_read_str_of_gt (s : SliceReader) (n : Nat) (h : s.slice.length < n) :
    s.forward_read_str n = (Except.error SliceReader.unexpected_eof, s) := by
  unfold SliceReader.forward_read_str SliceReader.get_byte_slice
  rw [if_pos (by omega)]

/-- A successful `from_utf8` returns its input bytes. -/
theorem from_utf8_ok (l v : List Byte) (h : from_utf8 l = Except.ok v) : v = l := by
  unfold from_utf8 at h
  cases hu : utf8ValidateAux 0 0 0 0x80 0xBF l <;> rw [hu] at h <;> simp_all

/-! ### Claim theorems -/

/-- Claim C3: for every slice-source state and every `length` at most the
number of remaining bytes, `get_byte_slice` returns exactly the first
`length` remaining bytes and advances the source so that a subsequent read
starts immediately after them. -/
theorem get_byte_slice_spec (s : SliceReader) (L : Nat) (h : L ≤ s.slice.length) :
    (s.get_byte_slice L).1 = Except.ok (s.slice.take L) ∧
    (s.get_byte_slice L).2 = SliceReader.new (s.slice.drop L) := by
  unfold SliceReader.get_byte_slice SliceReader.new
  rw [if_neg (by omega)]
  exact ⟨rfl, rfl⟩

/-- Witness for C3 at a concrete input. -/
theorem get_byte_slice_spec_witness :
    ((SliceReader.new [1, 2, 3]).get_byte_slice 2).1 = Except.ok [1, 2] ∧
    ((SliceReader.new [1, 2, 3]).get_byte_slice 2).2 = SliceReader.new [3] :=
  get_byte_slice_spec (SliceReader.new [1, 2, 3]) 2 (by decide)

/-- Claim C4: for every slice-source state and every `length` strictly greater
than the number of remaining bytes, `get_byte_slice` fails with an
unexpected-end-of-input error and leaves the remaining bytes unchanged. -/
theorem get_byte_slice_eof (s : SliceReader) (L : Nat) (h : s.slice.length < L) :
    (s.get_byte_slice L).1 = Except.error (ErrorKind.Io IoErrorKind.unexpectedEof) ∧
    (s.get_byte_slice L).2 = s := by
  unfold SliceReader.get_byte_slice
  rw [if_pos (by omega)]
  exact ⟨rfl, rfl⟩

/-- Witness for C4 at a concrete input. -/
theorem get_byte_slice_eof_witness :
    ((SliceReader.new [7]).get_byte_slice 2).1 =
      Except.error (ErrorKind.Io IoErrorKind.unexpectedEof) ∧
    ((SliceReader.new [7]).get_byte_slice 2).2 = SliceReader.new [7] :=
  get_byte_slice_eof (SliceReader.new [7]) 2 (by decide)

/-- Claim C2: whenever `fill_buffer(length)` succeeds, the scratch buffer's
content is byte-for-byte the next `length` bytes the underlying resource
yields, and its logical length is exactly `length` (a fill succeeds exactly
when the resource has that many bytes). -/
theorem fill_buffer_success_spec (r : IoReader) (L : Nat) (h : L ≤ r.reader.length) :
    (r.fill_buffer L).1 = Except.ok () ∧
    ((r.fill_buffer L).2).temp_buffer = r.reader.take L ∧
    ((r.fill_buffer L).2).len = L :=
  ⟨fill_buffer_fst_of_le r L h, fill_buffer_temp_of_le r L h,
   fill_buffer_len_of_le r L h⟩

/-- Witness for C2 at a concrete input. -/
theorem fill_buffer_success_spec_witness :
    ((IoReader.new [10, 20, 30]).fill_buffer 2).1 = Except.ok () ∧
    (((IoReader.new [10, 20, 30]).fill_buffer 2).2).temp_buffer = [10, 20] ∧
    (((IoReader.new [10, 20, 30]).fill_buffer 2).2).len = 2 :=
  fill_buffer_success_spec (IoReader.new [10, 20, 30]) 2 (by decide)

/-- Claim C1: if the exact-length read inside `fill_buffer(length)` fails, the
scratch buffer's logical length is exactly what it was before the call (it is
committed to `length` only on full success elsewhere), and no partially
written bytes are ever observable to a caller: every byte sequence any public
operation returns is a prefix of the underlying stream, never scratch
content. -/
theorem fill_buffer_fail_spec (r : IoReader) (L : Nat) (h : r.reader.length < L) :
    (r.fill_buffer L).1 = Except.error (ErrorKind.Io IoErrorKind.unexpectedEof) ∧
    ((r.fill_buffer L).2).len = r.len ∧
    (∀ (s : IoReader) (n : Nat) (v : List Byte) (s1 : IoReader),
      s.forward_read_bytes n = (Except.ok v, s1) → v = s.reader.take n) ∧
    (∀ (s : IoReader) (n : Nat) (v : List Byte) (s1 : IoReader),
      s.get_byte_buffer n = (Except.ok v, s1) → v = s.reader.take n) ∧
    (∀ (s : IoReader) (n : Nat) (v : List Byte) (s1 : IoReader),
      s.forward_read_str n = (Except.ok v, s1) → v = s.reader.take n) ∧
    (∀ (s : IoReader) (n : Nat) (v : List Byte) (s1 : IoReader),
      s.read_exact n = (Except.ok v, s1) → v = s.reader.take n) := by
  refine ⟨fill_buffer_fst_of_gt r L h, fill_buffer_len_of_gt r L h, ?_, ?_, ?_, ?_⟩
  · intro s n v s1 hop
    by_cases hn : n ≤ s.reader.length
    · rw [forward_read_bytes_of_le s n hn] at hop
      simp at hop
      exact hop.1.symm
    · rw [forward_read_bytes_of_gt s n (by omega)] at hop
      simp at hop
  · intro s n v s1 hop
    by_cases hn : n ≤ s.reader.length
    · rw [get_byte_buffer_of_le s n hn] at hop
      simp at hop
      exact hop.1.symm
    · rw [get_byte_buffer_of_gt s n (by omega)] at hop
      simp at hop
  · intro s n v s1 hop
    by_cases hn : n ≤ s.reader.length
    · rw [io_forward_read_str_of_le s n hn] at hop
      cases hu : from_utf8 (s.reader.take n) <;> rw [hu] at hop <;> simp at hop
      rw [← hop.1]
      exact from_utf8_ok _ _ hu
    · rw [io_forward_read_str_of_gt s n (by omega)] at hop
      simp at hop
  · intro s n v s1 hop
    unfold IoReader.read_exact at hop
    by_cases hn : n ≤ s.reader.length
    · rw [if_neg (by omega)] at hop
      simp at hop
      exact hop.1.symm
    · rw [if_pos (by omega)] at hop
      simp at hop

/-- Witness for C1 at a concrete input. -/
theorem fill_buffer_fail_spec_witness :
    ((IoReader.new [1, 2]).fill_buffer 3).1 =
      Except.error (ErrorKind.Io IoErrorKind.unexpectedEof) ∧
    (((IoReader.new [1, 2]).fill_buffer 3).2).len = 0 ∧
    (∀ (s : IoReader) (n : Nat) (v : List Byte) (s1 : IoReader),
      s.forward_read_bytes n = (Except.ok v, s1) → v = s.reader.take n) ∧
    (∀ (s : IoReader) (n : Nat) (v : List Byte) (s1 : IoReader),
      s.get_byte_buffer n = (Except.ok v, s1) → v = s.reader.take n) ∧
    (∀ (s : IoReader) (n : Nat) (v : List Byte) (s1 : IoReader),
      s.forward_read_str n = (Except.ok v, s1) → v = s.reader.take n) ∧
    (∀ (s : IoReader) (n : Nat) (v : List Byte) (s1 : IoReader),
      s.read_exact n = (Except.ok v, s1) → v = s.reader.take n) :=
  fill_buffer_fail_spec (IoReader.new [1, 2]) 3 (by decide)

/-- Claim C10: for `length = 0`, materialization succeeds on every source
state, including an exhausted one: `get_byte_slice 0` returns an empty view,
`get_byte_buffer 0` an empty owned sequence, `fill_buffer 0` succeeds, and in
all cases the remaining bytes / underlying resource are unchanged. -/
theorem length_zero_spec (s : SliceReader) (r : IoReader) :
    (s.get_byte_slice 0).1 = Except.ok [] ∧
    (s.get_byte_slice 0).2 = s ∧
    (s.get_byte_buffer 0).1 = Except.ok [] ∧
    (s.get_byte_buffer 0).2 = s ∧
    (r.fill_buffer 0).1 = Except.ok () ∧
    ((r.fill_buffer 0).2).reader = r.reader ∧
    (r.get_byte_buffer 0).1 = Except.ok [] ∧
    ((r.get_byte_buffer 0).2).reader = r.reader := by
  have h0 : (0 : Nat) ≤ r.reader.length := Nat.zero_le _
  have hs : s.get_byte_slice 0 = (Except.ok [], s) := by
    unfold SliceReader.get_byte_slice
    rw [if_neg (by omega)]
    rfl
  refine ⟨?_, ?_, ?_, ?_, ?_, ?_, ?_, ?_⟩
  · rw [hs]
  · rw [hs]
  · unfold SliceReader.get_byte_buffer
    rw [hs]
  · unfold SliceReader.get_byte_buffer
    rw [hs]
  · exact fill_buffer_fst_of_le r 0 h0
  · rw [fill_buffer_of_le r 0 h0]
    simp
  · rw [get_byte_buffer_of_le r 0 h0]
    simp
  · rw [get_byte_buffer_of_le r 0 h0]
    simp

/-- Equation for `get_byte_slice` when enough bytes remain. -/
theorem slice_get_byte_slice_of_le (s : SliceReader) (n : Nat) (h : n ≤ s.slice.length) :
    s.get_byte_slice n = (Except.ok (s.slice.take n), ⟨s.slice.drop n⟩) := by
  unfold SliceReader.get_byte_slice
  rw [if_neg (by omega)]

/-- Equation for `get_byte_slice` when the slice is too short. -/
theorem slice_get_byte_slice_of_gt (s : SliceReader) (n : Nat) (h : s.slice.length < n) :
    s.get_byte_slice n = (Except.error SliceReader.unexpected_eof, s) := by
  unfold SliceReader.get_byte_slice
  rw [if_pos (by omega)]

/-- Equation for `SliceReader.get_byte_buffer` when enough bytes remain. -/
theorem slice_get_byte_buffer_of_le (s : SliceReader) (n : Nat) (h : n ≤ s.slice.length) :
    s.get_byte_buffer n = (Except.ok (s.slice.take n), ⟨s.slice.drop n⟩) := by
  unfold SliceReader.get_byte_buffer
  rw [slice_get_byte_slice_of_le s n h]

/-- Equation for `SliceReader.get_byte_buffer` when the slice is too short. -/
theorem slice_get_byte_buffer_of_gt (s : SliceReader) (n : Nat) (h : s.slice.length < n) :
    s.get_byte_buffer n = (Except.error SliceReader.unexpected_eof, s) := by
  unfold SliceReader.get_byte_buffer
  rw [slice_get_byte_slice_of_gt s n h]

/-- Claim C5: for both sources, `forward_read_str(length)` fails with an
`InvalidUtf8Encoding` error carrying the UTF-8 validation error exactly when
the `length` bytes obtained are not valid UTF-8, and fails with an
unexpected-end-of-input `Io` error exactly when fewer than `length` bytes are
available. -/
theorem forward_read_str_errors (s : SliceReader) (r : IoReader) (L : Nat) :
    ((s.forward_read_str L).1 = Except.error (ErrorKind.Io IoErrorKind.unexpectedEof) ↔
      s.slice.length < L) ∧
    (∀ e : Utf8Error,
      (s.forward_read_str L).1 = Except.error (ErrorKind.InvalidUtf8Encoding e) ↔
      L ≤ s.slice.length ∧ from_utf8 (s.slice.take L) = Except.error e) ∧
    ((r.forward_read_str L).1 = Except.error (ErrorKind.Io IoErrorKind.unexpectedEof) ↔
      r.reader.length < L) ∧
    (∀ e : Utf8Error,
      (r.forward_read_str L).1 = Except.error (ErrorKind.InvalidUtf8Encoding e) ↔
      L ≤ r.reader.length ∧ from_utf8 (r.reader.take L) = Except.error e) := by
  refine ⟨?_, ?_, ?_, ?_⟩
  · by_cases hs : L ≤ s.slice.length
    · rw [slice_forward_read_str_of_le s L hs]
      cases hu : from_utf8 (s.slice.take L) <;> simp <;> omega
    · rw [slice_forward_read_str_of_gt s L (by omega)]
      simp [SliceReader.unexpected_eof]
      omega
  · intro e
    by_cases hs : L ≤ s.slice.length
    · rw [slice_forward_read_str_of_le s L hs]
      cases hu : from_utf8 (s.slice.take L) <;> simp [hs, hu]
    · rw [slice_forward_read_str_of_gt s L (by omega)]
      simp [SliceReader.unexpected_eof, hs]
  · by_cases hr : L ≤ r.reader.length
    · rw [io_forward_read_str_of_le r L hr]
      cases hu : from_utf8 (r.reader.take L) <;> simp <;> omega
    · rw [io_forward_read_str_of_gt r L (by omega)]
      simp
      omega
  · intro e
    by_cases hr : L ≤ r.reader.length
    · rw [io_forward_read_str_of_le r L hr]
      cases hu : from_utf8 (r.reader.take L) <;> simp [hr, hu]
    · rw [io_forward_read_str_of_gt r L (by omega)]
      simp [hr]

/-- Claim C8: over the same underlying byte sequence the two sources are
observationally equivalent: `get_byte_buffer(length)` returns the same result
from a stream source as from a slice source over those bytes, and
`forward_read_str(length)` yields the identical outcome (in particular the
identical string on valid UTF-8 input) from both. -/
theorem reader_equivalence (bs : List Byte) (L : Nat) :
    ((IoReader.new bs).get_byte_buffer L).1 =
      ((SliceReader.new bs).get_byte_buffer L).1 ∧
    ((IoReader.new bs).forward_read_str L).1 =
      ((SliceReader.new bs).forward_read_str L).1 := by
  by_cases h : L ≤ bs.length
  · have hio : L ≤ (IoReader.new bs).reader.length := h
    have hsl : L ≤ (SliceReader.new bs).slice.length := h
    constructor
    · rw [get_byte_buffer_of_le _ L hio, slice_get_byte_buffer_of_le _ L hsl]
      rfl
    · rw [io_forward_read_str_of_le _ L hio, slice_forward_read_str_of_le _ L hsl]
      simp only [IoReader.new, SliceReader.new]
      cases hu : from_utf8 (bs.take L) <;> rfl
  · have hio : (IoReader.new bs).reader.length < L := by simpa [IoReader.new] using by omega
    have hsl : (SliceReader.new bs).slice.length < L := by simpa [SliceReader.new] using by omega
    constructor
    · rw [get_byte_buffer_of_gt _ L hio, slice_get_byte_buffer_of_gt _ L hsl]
      rfl
    · rw [io_forward_read_str_of_gt _ L hio, slice_forward_read_str_of_gt _ L hsl]
      rfl

/-- Claim C9: after a fill of length `L` has completed, a subsequent fill of
any length `n ≤ L` does not reallocate the scratch buffer: the reported
capacity is unchanged by the second fill (for any source state satisfying the
representation invariant `len ≤ capacity`). -/
theorem fill_buffer_capacity_reuse (r : IoReader) (L n : Nat)
    (hinv : r.len ≤ r.raw.length) (hL : L ≤ r.reader.length) (hn : n ≤ L) :
    ((((r.fill_buffer L).2).fill_buffer n).2).capacity =
      ((r.fill_buffer L).2).capacity := by
  have h1 := fill_buffer_capacity r L hinv
  have hinv1 := fill_buffer_inv r L hinv
  have h2 := fill_buffer_capacity ((r.fill_buffer L).2) n hinv1
  unfold IoReader.capacity at h1 h2 ⊢
  rw [h2, h1]
  omega

/-- Witness for C9 at a concrete input. -/
theorem fill_buffer_capacity_reuse_witness :
    ((((IoReader.new [1, 2, 3]).fill_buffer 2).2).fill_buffer 1).2.capacity =
      (((IoReader.new [1, 2, 3]).fill_buffer 2).2).capacity :=
  fill_buffer_capacity_reuse (IoReader.new [1, 2, 3]) 2 1 (by decide) (by decide)
    (by decide)

/-- Counterexample to claim C6 as stated: after the public operation
`forward_read_bytes(1)` on a fresh stream source over one byte, the scratch
buffer's logical length is 1, not 0 — no operation restores it to 0. -/
theorem scratch_length_cex :
    (((IoReader.new [97]).forward_read_bytes 1).2).len = 1 ∧
    ((1 : Nat) = 0 → False) := by
  exact ⟨by decide, by decide⟩

/-- Claim C6 (amended): the scratch buffer's logical length starts at 0 and
returns to 0 after `get_byte_buffer`, and `read`/`read_exact` leave it
unchanged; but after a successful `forward_read_bytes(L)` or
`forward_read_str(L)` it remains `L` — those operations do not restore it
to 0. -/
theorem scratch_length_between_calls (bs : List Byte) (r : IoReader) (L : Nat) :
    (IoReader.new bs).len = 0 ∧
    (L ≤ r.reader.length → ((r.get_byte_buffer L).2).len = 0) ∧
    (L ≤ r.reader.length → ((r.forward_read_bytes L).2).len = L) ∧
    (L ≤ r.reader.length → ((r.forward_read_str L).2).len = L) ∧
    ((r.read L).2).len = r.len ∧
    ((r.read_exact L).2).len = r.len := by
  refine ⟨rfl, ?_, ?_, ?_, rfl, ?_⟩
  · intro h
    rw [get_byte_buffer_of_le r L h]
  · intro h
    rw [forward_read_bytes_of_le r L h]
    exact fill_buffer_len_of_le r L h
  · intro h
    rw [io_forward_read_str_of_le r L h]
    cases hu : from_utf8 (r.reader.take L) <;> simp only []
    · exact fill_buffer_len_of_le r L h
    · exact fill_buffer_len_of_le r L h
  · unfold IoReader.read_exact
    split <;> rfl

/-- Counterexample to claim C7 as stated: `forward_read_str(1)` on a slice
source over the single invalid byte `0x80` fails with `InvalidUtf8Encoding`,
yet the remaining-bytes cursor has advanced past that byte (the slice is
empty, no longer `[0x80]`), so this failure path mutated externally visible
state before returning. -/
theorem error_path_mutation_cex :
    ((SliceReader.new [128]).forward_read_str 1).1 =
      Except.error (ErrorKind.InvalidUtf8Encoding ⟨0⟩) ∧
    (((SliceReader.new [128]).forward_read_str 1).2).slice = [] ∧
    (((SliceReader.new [128]).forward_read_str 1).2).slice ≠ [128] :=
  ⟨rfl, rfl, by decide⟩

/-- Claim C7 (amended): every unexpected-end-of-input failure path returns
before mutating externally visible state — the slice source's cursor is
unchanged and the stream source never commits the scratch length on a failed
fill. UTF-8 validation failures, however, occur after byte acquisition: when
`forward_read_str` fails with `InvalidUtf8Encoding`, the slice source's
cursor has already advanced past the `length` bytes, and the stream source's
scratch length has already been committed to `length`. -/
theorem error_paths_amended :
    (∀ (s : SliceReader) (L : Nat), s.slice.length < L →
      s.get_byte_slice L = (Except.error SliceReader.unexpected_eof, s)) ∧
    (∀ (s : SliceReader) (L : Nat), s.slice.length < L →
      s.forward_read_str L = (Except.error SliceReader.unexpected_eof, s)) ∧
    (∀ (s : SliceReader) (n : Nat), s.slice.length < n →
      s.read_exact n = (Except.error SliceReader.unexpected_eof, s)) ∧
    (∀ (s : SliceReader) (L : Nat) (e : Utf8Error),
      (s.forward_read_str L).1 = Except.error (ErrorKind.InvalidUtf8Encoding e) →
      ((s.forward_read_str L).2).slice = s.slice.drop L) ∧
    (∀ (r : IoReader) (L : Nat), r.reader.length < L →
      ((r.fill_buffer L).2).len = r.len) ∧
    (∀ (r : IoReader) (L : Nat) (e : Utf8Error),
      (r.forward_read_str L).1 = Except.error (ErrorKind.InvalidUtf8Encoding e) →
      ((r.forward_read_str L).2).len = L) := by
  refine ⟨?_, ?_, ?_, ?_, ?_, ?_⟩
  · intro s L h
    exact slice_get_byte_slice_of_gt s L h
  · intro s L h
    exact slice_forward_read_str_of_gt s L h
  · intro s n h
    unfold SliceReader.read_exact
    rw [if_pos (by omega)]
  · intro s L e he
    by_cases h : L ≤ s.slice.length
    · rw [slice_forward_read_str_of_le s L h] at he ⊢
      cases from_utf8 (s.slice.take L) <;> simp_all
    · rw [slice_forward_read_str_of_gt s L (by omega)] at he
      simp [SliceReader.unexpected_eof] at he
  · intro r L h
    exact fill_buffer_len_of_gt r L h
  · intro r L e he
    by_cases h : L ≤ r.reader.length
    · rw [io_forward_read_str_of_le r L h]
      cases hu : from_utf8 (r.reader.take L) <;> simp only []
      · exact fill_buffer_len_of_le r L h
      · exact fill_buffer_len_of_le r L h
    · rw [io_forward_read_str_of_gt r L (by omega)] at he
      simp at he
